import Mathlib

/-!
Verification of the ulauncher-z-search extension (`src/main.py`).

The development shallowly embeds the three algorithmic pieces of the
program:

* `frecency` — the pure score function (`main.py` lines 38-51);
* `ZSearchExtension.search` — scan of the z file, regex filter, parse,
  score, sort descending, truncate (`main.py` lines 88-114), embedded
  here as `search`;
* `update_z_file` — the in-place rewrite of one record (`main.py`
  lines 54-70).

Python floats are modelled as rationals (`ℚ`); the current time
`time.time()` is lifted to an explicit `now : ℚ` parameter; the z file
is modelled as its list of raw lines (each line carrying its trailing
newline exactly as `readlines` yields it).  The compiled regular
expression `re.compile(query.lower(), re.IGNORECASE)` is abstracted as
a boolean function `matchFn : String → String → Bool` applied to the
lowered query and the raw line; `reSearchCI` below gives the concrete
instance for metacharacter-free patterns.
-/

namespace ZSearch

/-- Lowering of one character, modelling Python `str.lower` (ASCII
range, which is what z-file paths contain; identical to core
`Char.toLower`). -/
def lowerChar (c : Char) : Char :=
  if 65 ≤ c.toNat ∧ c.toNat ≤ 90 then Char.ofNat (c.toNat + 32) else c

/-- Python `s.lower()` (ASCII). -/
def pyLower (s : String) : String := ⟨s.data.map lowerChar⟩

/-- Python `s.rstrip("\n")`: drop every trailing newline character. -/
def pyRStripNL (s : String) : String :=
  ⟨(s.data.reverse.dropWhile (· == '\n')).reverse⟩

/-- Splitting a character list at every `'|'`, modelling Python
`str.split("|")` (and Lean `String.splitOn "|"`): `splitBar [] = [[]]`,
separators delimit possibly empty fields. -/
def splitBar : List Char → List (List Char)
  | [] => [[]]
  | c :: t =>
    if c = '|' then [] :: splitBar t
    else
      match splitBar t with
      | h :: r => (c :: h) :: r
      | [] => [[c]]

/-- The `|`-separated fields of a string, as strings. -/
def lineFields (s : String) : List String :=
  (splitBar s.data).map fun cs => String.mk cs

/-- Python `s.rsplit("|", maxsplit=m)`: split from the right at most
`m` times, the leftmost part keeping any remaining separators. -/
def pyRSplitBar (s : String) (m : Nat) : List String :=
  let parts := splitBar s.data
  if parts.length ≤ m + 1 then parts.map fun cs => String.mk cs
  else
    (List.intercalate ['|'] (parts.take (parts.length - m)) ::
      parts.drop (parts.length - m)).map fun cs => String.mk cs

/-- Value of a digit run, e.g. `digitsVal ['4','2'] = 42`. -/
def digitsVal (cs : List Char) : Nat :=
  cs.foldl (fun n c => 10 * n + (c.toNat - 48)) 0

/-- Python `float(s)`, modelled on the signed decimal subset of the
accepted syntax (`"12"`, `"-3.5"`, `"+.25"`, `"7."`); returns `none`
(the `ValueError` case) otherwise. -/
def pyFloat? (s : String) : Option ℚ :=
  let (neg, cs) :=
    match s.data with
    | '-' :: t => (true, t)
    | '+' :: t => (false, t)
    | t => (false, t)
  let ip := cs.takeWhile (·.isDigit)
  let rest := cs.dropWhile (·.isDigit)
  let val? : Option ℚ :=
    match rest with
    | [] => if ip.isEmpty then none else some (digitsVal ip)
    | '.' :: fp =>
      if fp.all (·.isDigit) && !(ip.isEmpty && fp.isEmpty) then
        some ((digitsVal ip : ℚ) + (digitsVal fp : ℚ) / (10 : ℚ) ^ fp.length)
      else none
    | _ => none
  val?.map fun v => if neg then -v else v

/-- Definition of `frecency` from `main.py` lines 38-51, with `time.time()` lifted
to the explicit argument `now` (`delta_t = now - last_time`). -/
def frecency (rank last_time now : ℚ) : ℚ :=
  let delta_t := now - last_time
  let multiplier : ℚ :=
    if delta_t < 3600 then 4
    else if delta_t < 86400 then 2
    else if delta_t < 604800 then 1 / 2
    else 1 / 4
  rank * multiplier

/-- One entry of the list `ZSearchExtension.search` builds: the dict
`{"path": .., "rank": .., "time": .., "frecency": ..}`. -/
structure ZRecord where
  path : String
  rank : ℚ
  time : ℚ
  frec : ℚ
deriving DecidableEq, Repr

/-- Parsing of one matched line, `main.py` lines 101-103:
`line.rstrip("\n").split("|")` unpacked into exactly three fields,
then `float` applied to rank and time; `none` models the uncaught
`ValueError` on a malformed line. -/
def parseLine (now : ℚ) (line : String) : Option ZRecord :=
  match lineFields (pyRStripNL line) with
  | [p, r, t] =>
    match pyFloat? r, pyFloat? t with
    | some rank, some lt => some ⟨p, rank, lt, frecency rank lt now⟩
    | _, _ => none
  | _ => none

/-- The lines the compiled pattern selects (`if pattern.search(line)`),
with the query lowered first (`query = query.lower()`). -/
def matchedLines (matchFn : String → String → Bool) (query : String)
    (lines : List String) : List String :=
  lines.filter fun l => matchFn (pyLower query) l

/-- Parse every matched line in order; the loop body of `search`
raises on the first malformed matched line, which the `Option` models. -/
def parseAll (now : ℚ) : List String → Option (List ZRecord)
  | [] => some []
  | l :: ls => do
    let r ← parseLine now l
    let rs ← parseAll now ls
    pure (r :: rs)

/-- Descending-by-frecency order used by
`sorted(results, key=lambda dic: dic["frecency"], reverse=True)`. -/
def frecGE (a b : ZRecord) : Prop := b.frec ≤ a.frec

instance : DecidableRel frecGE :=
  fun a b => show Decidable (b.frec ≤ a.frec) from inferInstance

instance : IsTotal ZRecord frecGE := ⟨fun a b => le_total b.frec a.frec⟩

instance : IsTrans ZRecord frecGE := ⟨fun _ _ _ h1 h2 => le_trans h2 h1⟩

/-- The sort in `main.py` line 113 (descending by frecency; the spec
leaves tie order unspecified). -/
def sortDesc (l : List ZRecord) : List ZRecord := List.insertionSort frecGE l

/-- Python list slicing `l[:n]` for an `int` bound `n`: a nonnegative
bound takes the first `n` elements, a negative bound drops the last
`|n|` elements. -/
def pySlice (n : Int) (l : List α) : List α :=
  if 0 ≤ n then l.take n.toNat else l.take (l.length - (-n).toNat)

/-- Embedding of `ZSearchExtension.search` (`main.py` lines 88-114): filter the raw
lines by the compiled pattern, parse each matched line, sort by
frecency descending, slice to `max_results`.  `matchFn` abstracts
`re.compile(·, re.IGNORECASE).search(·) is not None`; `none` models an
uncaught `ValueError` from parsing. -/
def search (matchFn : String → String → Bool) (now : ℚ) (lines : List String)
    (query : String) (maxResults : Int) : Option (List ZRecord) :=
  match parseAll now (matchedLines matchFn query lines) with
  | none => none
  | some results => some (pySlice maxResults (sortDesc results))

/-- Substring test on character lists (`containsSub hay pat` is true
iff `pat` occurs contiguously in `hay`; the empty pattern occurs
everywhere). -/
def containsSub : List Char → List Char → Bool
  | [], pat => pat.isEmpty
  | c :: t, pat => pat.isPrefixOf (c :: t) || containsSub t pat

/-- Model of `re.compile(pat, re.IGNORECASE).search(line) is not None`
for patterns free of regex metacharacters: a case-insensitive
substring test (ASCII case folding).  Used to instantiate the abstract
`matchFn` on concrete literal queries. -/
def reSearchCI (pat line : String) : Bool :=
  containsSub (pyLower line).data (pyLower pat).data

/-- Python `int(q)` on a float: truncation toward zero. -/
def pyInt (q : ℚ) : Int := if 0 ≤ q then ⌊q⌋ else -⌊-q⌋

/-- The replacement line `f"{path}|{rank}|{int(time)}" + os.linesep`
(`main.py` line 63; `os.linesep = "\n"` on the target platform).  The
rank is taken already serialized to the string Python's f-string
renders; the timestamp is truncated by `int(...)`. -/
def newLine (path rankStr : String) (t : ℚ) : String :=
  path ++ "|" ++ rankStr ++ "|" ++ toString (pyInt t) ++ "\n"

/-- Processing of one line of the loop in `update_z_file` (`main.py`
lines 60-65): `line.rsplit("|", maxsplit=3)` unpacked into exactly
three names (`none` models the `ValueError` when the split yields a
different number of parts), replacement when the path field equals
`path` by string equality; the Bool records whether this line was
replaced. -/
def touchLine (path rankStr : String) (t : ℚ) (line : String) :
    Option (String × Bool) :=
  match pyRSplitBar line 3 with
  | [old_path, _, _] =>
    if old_path = path then some (newLine path rankStr t, true)
    else some (line, false)
  | _ => none

/-- Embedding of `update_z_file` (`main.py` lines 54-70) on the file's list of raw
lines: rewrite every line through `touchLine`, collecting the written
lines and the `line_replaced` flag (`false` triggers the "not found"
warning).  `none` models an uncaught `ValueError`. -/
def update_z_file : List String → String → String → ℚ →
    Option (List String × Bool)
  | [], _, _, _ => some ([], false)
  | line :: rest, path, rankStr, t => do
    let (l, rep) ← touchLine path rankStr t line
    let (ls, reps) ← update_z_file rest path rankStr t
    pure (l :: ls, rep || reps)

/-- The path field `update_z_file` compares against: the head of
`line.rsplit("|", maxsplit=3)`. -/
def pathField (line : String) : String := (pyRSplitBar line 3).headD ("")

/-- Observable content of the backing store while the
`fileinput(file, inplace=1)` loop of `update_z_file` is mid-rewrite:
the module moves the original file aside and recreates the original
path, writing the processed lines one by one, so after `k` input lines
the file at the original path holds exactly the output for the first
`k` lines.  (Modelled from the `fileinput` in-place mechanism the code
invokes; there is no temp-file-plus-rename step.) -/
def inplaceIntermediate (lines : List String) (path rankStr : String)
    (t : ℚ) (k : Nat) : Option (List String) :=
  (update_z_file (lines.take k) path rankStr t).map Prod.fst

/-! ## Helper lemmas -/

theorem lowerChar_idem (c : Char) : lowerChar (lowerChar c) = lowerChar c := by
  by_cases h : 65 ≤ c.toNat ∧ c.toNat ≤ 90
  · have e : lowerChar c = Char.ofNat (c.toNat + 32) := by
      simp only [lowerChar]; rw [if_pos h]
    rw [e]
    have h1 : 97 ≤ c.toNat + 32 := by omega
    have h2 : c.toNat + 32 ≤ 122 := by omega
    obtain ⟨m, hm⟩ : ∃ m, c.toNat + 32 = m := ⟨_, rfl⟩
    rw [hm] at h1 h2 ⊢
    interval_cases m <;> decide
  · have e : lowerChar c = c := by simp only [lowerChar]; rw [if_neg h]
    rw [e, e]

theorem pyLower_idem (s : String) : pyLower (pyLower s) = pyLower s := by
  show String.mk ((s.data.map lowerChar).map lowerChar) = String.mk (s.data.map lowerChar)
  congr 1
  rw [List.map_map]
  exact List.map_congr_left fun a _ => lowerChar_idem a

/-! ## Claims -/

/-- Claim C1: for every rank `r` and timestamps `lastAccess` and `now`,
with `delta = now - lastAccess`, `frecency` returns `r*4` when
`delta < 3600` (negative deltas included), `r*2` when
`3600 ≤ delta < 86400`, `r*(1/2)` when `86400 ≤ delta < 604800`, and
`r*(1/4)` otherwise; the buckets are tested in order and the first
match wins. -/
theorem frecency_buckets (r la now : ℚ) :
    (now - la < 3600 → frecency r la now = r * 4) ∧
    (3600 ≤ now - la → now - la < 86400 → frecency r la now = r * 2) ∧
    (86400 ≤ now - la → now - la < 604800 → frecency r la now = r * (1 / 2)) ∧
    (604800 ≤ now - la → frecency r la now = r * (1 / 4)) := by
  refine ⟨fun h1 => ?_, fun h1 h2 => ?_, fun h1 h2 => ?_, fun h1 => ?_⟩ <;>
    simp only [frecency]
  · rw [if_pos h1]
  · rw [if_neg (not_lt.2 h1), if_pos h2]
  · rw [if_neg (by linarith : ¬now - la < 3600), if_neg (not_lt.2 h1), if_pos h2]
  · rw [if_neg (by linarith : ¬now - la < 3600), if_neg (by linarith : ¬now - la < 86400),
      if_neg (not_lt.2 h1)]

/-- Witness for C1 at the spec's own test points (`lastAccess = 0`, so
`delta = now` is 1800, 7200, 200000 and 1000000 seconds). -/
theorem frecency_buckets_witness :
    frecency 5 0 1800 = 5 * 4 ∧ frecency 5 0 7200 = 5 * 2 ∧
    frecency 5 0 200000 = 5 * (1 / 2) ∧ frecency 5 0 1000000 = 5 * (1 / 4) :=
  ⟨(frecency_buckets 5 0 1800).1 (by norm_num),
   (frecency_buckets 5 0 7200).2.1 (by norm_num) (by norm_num),
   (frecency_buckets 5 0 200000).2.2.1 (by norm_num) (by norm_num),
   (frecency_buckets 5 0 1000000).2.2.2 (by norm_num)⟩

/-- Claim C10: `search` on a query equals `search` on the lowercased
query, because the code lowercases the query (`query = query.lower()`)
before compiling the pattern and lowering is idempotent. -/
theorem search_query_lower_invariant (f : String → String → Bool) (now : ℚ)
    (lines : List String) (q : String) (maxR : Int) :
    search f now lines q maxR = search f now lines (pyLower q) maxR := by
  simp only [search, matchedLines, pyLower_idem]

theorem pyRSplitBar_ok (l : String) (h : (splitBar l.data).length = 3) :
    pyRSplitBar l 3 = (splitBar l.data).map fun cs => String.mk cs := by
  simp only [pyRSplitBar]
  rw [if_pos (by omega)]

/-- On a store whose every line has exactly two separators (three
fields), `update_z_file` rewrites each line through the path test and
reports whether any line's path field equalled `path`. -/
theorem update_z_file_spine (lines : List String) (p r : String) (t : ℚ)
    (h : ∀ l ∈ lines, (splitBar l.data).length = 3) :
    update_z_file lines p r t =
      some (lines.map fun l => if pathField l = p then newLine p r t else l,
            lines.any fun l => pathField l == p) := by
  induction lines with
  | nil => rfl
  | cons l ls ih =>
    have hl := h l (List.mem_cons_self l ls)
    obtain ⟨a, b, c, habc⟩ := List.length_eq_three.mp hl
    have hrs : pyRSplitBar l 3 = [String.mk a, String.mk b, String.mk c] := by
      rw [pyRSplitBar_ok l hl, habc]; rfl
    have hpf : pathField l = String.mk a := by
      rw [pathField, hrs]; rfl
    have ihh := ih fun x hx => h x (List.mem_cons_of_mem l hx)
    by_cases hap : pathField l = p
    · have hmk : String.mk a = p := by rw [← hpf]; exact hap
      simp [update_z_file, touchLine, hrs, hmk, ihh, hpf, hap]
    · have hmk : ¬String.mk a = p := by rw [← hpf]; exact hap
      simp [update_z_file, touchLine, hrs, hmk, ihh, hpf, hap]

/-- Claim C8: when no line's path field equals the given path, the
rewrite leaves the file content unchanged and the `line_replaced` flag
stays `false` (the branch that logs the "not found" warning), with no
error raised.  Lines are assumed well-formed (three fields), since
`update_z_file` unpacks every line. -/
theorem touch_not_found_noop (lines : List String) (p r : String) (t : ℚ)
    (hok : ∀ l ∈ lines, (splitBar l.data).length = 3)
    (hmiss : ∀ l ∈ lines, pathField l ≠ p) :
    update_z_file lines p r t = some (lines, false) := by
  rw [update_z_file_spine lines p r t hok]
  have h1 : (lines.map fun l => if pathField l = p then newLine p r t else l) = lines := by
    have : (lines.map fun l => if pathField l = p then newLine p r t else l) =
        lines.map id :=
      List.map_congr_left fun l hl => by simp [hmiss l hl]
    rw [this, List.map_id]
  have h2 : (lines.any fun l => pathField l == p) = false := by
    rw [List.any_eq_false]
    intro l hl
    simpa using hmiss l hl
  rw [h1, h2]

/-- Witness for C8: a one-line store and an absent path. -/
theorem touch_not_found_noop_witness :
    update_z_file ["/home/a|1|2\n"] "/zzz" "1" 0 = some (["/home/a|1|2\n"], false) :=
  touch_not_found_noop ["/home/a|1|2\n"] "/zzz" "1" 0 (by decide) (by decide)

/-- Claim C4 (amended): on a well-formed store with exactly one line
whose path field equals `p`, `update_z_file` replaces exactly that
line with `p|r|int(t)` — the timestamp truncated toward zero by the
code's `int(time)`, hence equal to `p|r|t` only when `t` is integral —
terminated by the platform newline, and keeps every other line
byte-identical and in its original order. -/
theorem touch_roundtrip (lines : List String) (p r : String) (t : ℚ)
    (hok : ∀ l ∈ lines, (splitBar l.data).length = 3)
    (hone : lines.countP (fun l => pathField l == p) = 1) :
    update_z_file lines p r t =
      some (lines.map fun l => if pathField l = p then newLine p r t else l, true) := by
  rw [update_z_file_spine lines p r t hok]
  have hany : (lines.any fun l => pathField l == p) = true := by
    rw [List.any_eq_true]
    have hpos : 0 < lines.countP fun l => pathField l == p := by omega
    exact List.countP_pos_iff.mp hpos
  rw [hany]

/-- Witness for C4: the second line's path matches and is rewritten;
the first line is untouched. -/
theorem touch_roundtrip_witness :
    update_z_file ["/home/a|1|2\n", "/home/b|3|4\n"] "/home/b" "4.0" 1700000000 =
      some (["/home/a|1|2\n", "/home/b|4.0|1700000000\n"], true) := by
  have h := touch_roundtrip ["/home/a|1|2\n", "/home/b|3|4\n"] "/home/b" "4.0"
    1700000000 (by decide) (by decide)
  rw [h]
  with_unfolding_all rfl

/-- Counterexample to C4 as stated: with the fractional timestamp
`t = 7/2` the stored line is `/a|5|3` (the code writes `int(time)`),
not the claim's `p|r|t` line `/a|5|3.5`. -/
theorem touch_truncates_time_counterexample :
    update_z_file ["/a|1|2\n"] "/a" "5" (7 / 2 : ℚ) = some (["/a|5|3\n"], true) ∧
    "/a|5|3\n" ≠ "/a|5|3.5\n" :=
  ⟨by with_unfolding_all rfl, by decide⟩

/-- Claim C6: a line whose path field contains the separator defeats
both operations instead of being parsed from the right with at most
two splits: on the line `/a|b|2|3`, `search`'s full `split("|")`
yields four fields and its triple unpacking raises `ValueError`
(modelled by `none`), and `update_z_file`'s
`rsplit("|", maxsplit=3)` also yields four fields and raises — even
when called with the exact stored path `/a|b`. -/
theorem path_with_separator_raises :
    search reSearchCI 0 ["/a|b|2|3\n"] "a" 5 = none ∧
    update_z_file ["/a|b|2|3\n"] "/a|b" "9" 9 = none :=
  ⟨by with_unfolding_all rfl, by with_unfolding_all rfl⟩

/-- Claim C9: the rewrite is not atomic.  `update_z_file` rewrites via
`fileinput(file, inplace=1)`, which recreates the file at the original
path and writes it progressively; after the first of two lines has
been processed, a reader of the path observes a one-line file that is
neither the original content nor the final content — a
partially-written store the claim says can never be observed. -/
theorem inplace_rewrite_not_atomic :
    inplaceIntermediate ["/home/a|1|2\n", "/home/b|3|4\n"] "/home/b" "4" 5 1 =
      some ["/home/a|1|2\n"] ∧
    (update_z_file ["/home/a|1|2\n", "/home/b|3|4\n"] "/home/b" "4" 5).map Prod.fst =
      some ["/home/a|1|2\n", "/home/b|4|5\n"] ∧
    (["/home/a|1|2\n"] : List String) ≠ ["/home/a|1|2\n", "/home/b|3|4\n"] ∧
    (["/home/a|1|2\n"] : List String) ≠ ["/home/a|1|2\n", "/home/b|4|5\n"] :=
  ⟨by with_unfolding_all rfl, by with_unfolding_all rfl, by decide, by decide⟩

theorem parseAll_eq_forall2 {now : ℚ} : ∀ {ls : List String} {rs : List ZRecord},
    parseAll now ls = some rs ↔
      List.Forall₂ (fun l r => parseLine now l = some r) ls rs := by
  intro ls
  induction ls with
  | nil =>
    intro rs
    constructor
    · intro h
      obtain rfl : ([] : List ZRecord) = rs := by
        simpa [parseAll] using h
      exact List.Forall₂.nil
    · intro h
      cases h
      rfl
  | cons l t ih =>
    intro rs
    constructor
    · intro h
      cases hp : parseLine now l with
      | none => rw [parseAll, hp] at h; simp at h
      | some r =>
        cases hq : parseAll now t with
        | none => rw [parseAll, hp, hq] at h; simp at h
        | some rs' =>
          rw [parseAll, hp, hq] at h
          obtain rfl : r :: rs' = rs := by simpa using h
          exact List.Forall₂.cons hp (ih.mp hq)
    · intro h
      cases h with
      | cons hlr htl => rw [parseAll, hlr, ih.mpr htl]; rfl

theorem parseAll_of_all_isSome {now : ℚ} : ∀ {ls : List String},
    (∀ l ∈ ls, (parseLine now l).isSome) →
      parseAll now ls = some (ls.filterMap (parseLine now)) := by
  intro ls
  induction ls with
  | nil => intro _; rfl
  | cons l t ih =>
    intro h
    obtain ⟨r, hr⟩ := Option.isSome_iff_exists.mp (h l (List.mem_cons_self l t))
    rw [parseAll, hr, ih fun x hx => h x (List.mem_cons_of_mem l hx)]
    simp [List.filterMap_cons, hr]

theorem forall2_parse_mem {now : ℚ} {ls : List String} {rs : List ZRecord}
    (h : List.Forall₂ (fun l r => parseLine now l = some r) ls rs) :
    ∀ rec : ZRecord, rec ∈ rs ↔ ∃ l ∈ ls, parseLine now l = some rec := by
  induction h with
  | nil => simp
  | @cons l r ls' rs' hlr _ ih =>
    intro rec
    simp only [List.mem_cons]
    constructor
    · rintro (rfl | hm)
      · exact ⟨l, Or.inl rfl, hlr⟩
      · obtain ⟨x, hx, hp⟩ := (ih rec).mp hm
        exact ⟨x, Or.inr hx, hp⟩
    · rintro ⟨x, hx, hp⟩
      rcases hx with rfl | hx'
      · left
        have := hlr.symm.trans hp
        exact (Option.some_inj.mp this).symm
      · right
        exact (ih rec).mpr ⟨x, hx', hp⟩

theorem pySlice_sublist (n : Int) (l : List α) : (pySlice n l).Sublist l := by
  unfold pySlice
  split <;> exact List.take_sublist _ _

theorem pySlice_all {n : Int} {l : List α} (h : (l.length : Int) ≤ n) :
    pySlice n l = l := by
  unfold pySlice
  rw [if_pos (le_trans (Int.ofNat_nonneg _) h)]
  exact List.take_of_length_le (by omega)

theorem sortDesc_perm (l : List ZRecord) : (sortDesc l).Perm l :=
  List.perm_insertionSort _ l

theorem sortDesc_sorted (l : List ZRecord) : (sortDesc l).Pairwise frecGE :=
  List.sorted_insertionSort _ l

theorem sorted_ne_strict {l : List ZRecord}
    (hs : l.Pairwise frecGE)
    (hne : l.Pairwise fun a b => a.frec ≠ b.frec) :
    l.Pairwise fun a b : ZRecord => b.frec < a.frec :=
  (hs.and hne).imp fun h => lt_of_le_of_ne h.1 (Ne.symm h.2)

/-- Claim C2: for a non-empty query whose match set parses to at least
two records with pairwise distinct frecency values (and a
`max_results` large enough not to truncate), `search` returns exactly
those records, sorted strictly descending by frecency. -/
theorem search_sorted_strict_desc (f : String → String → Bool) (now : ℚ)
    (lines : List String) (q : String) (maxR : Int) (recs : List ZRecord)
    (_hq : q ≠ "")
    (hparse : parseAll now (matchedLines f q lines) = some recs)
    (_h2 : 2 ≤ recs.length)
    (hdist : recs.Pairwise fun a b => a.frec ≠ b.frec)
    (hmax : (recs.length : Int) ≤ maxR) :
    search f now lines q maxR = some (sortDesc recs) ∧
    (sortDesc recs).Pairwise (fun a b => b.frec < a.frec) ∧
    (sortDesc recs).Perm recs := by
  have hperm : (sortDesc recs).Perm recs := sortDesc_perm recs
  have hfull : pySlice maxR (sortDesc recs) = sortDesc recs :=
    pySlice_all (by rw [hperm.length_eq]; exact hmax)
  refine ⟨?_, ?_, hperm⟩
  · simp only [search, hparse]
    rw [hfull]
  · have hne : (sortDesc recs).Pairwise fun a b => a.frec ≠ b.frec :=
      (List.Perm.pairwise_iff (fun h => Ne.symm h) hperm).mpr hdist
    exact sorted_ne_strict (sortDesc_sorted recs) hne

/-- Witness for C2: two matching records with frecencies 40 and 3/4;
the result is the strictly descending pair. -/
theorem search_sorted_strict_desc_witness :
    search reSearchCI 1700000100
        ["/home/alice/projects|10|1700000000\n", "/home/alice/docs|3|1650000000\n"]
        "alice" 5 =
      some (sortDesc [⟨"/home/alice/projects", 10, 1700000000, 40⟩,
        ⟨"/home/alice/docs", 3, 1650000000, 3 / 4⟩]) ∧
    (sortDesc [⟨"/home/alice/projects", 10, 1700000000, 40⟩,
        ⟨"/home/alice/docs", 3, 1650000000, 3 / 4⟩]).Pairwise
      (fun a b => b.frec < a.frec) ∧
    (sortDesc [⟨"/home/alice/projects", 10, 1700000000, 40⟩,
        ⟨"/home/alice/docs", 3, 1650000000, 3 / 4⟩]).Perm
      [⟨"/home/alice/projects", 10, 1700000000, 40⟩,
        ⟨"/home/alice/docs", 3, 1650000000, 3 / 4⟩] :=
  search_sorted_strict_desc reSearchCI 1700000100
    ["/home/alice/projects|10|1700000000\n", "/home/alice/docs|3|1650000000\n"]
    "alice" 5
    [⟨"/home/alice/projects", 10, 1700000000, 40⟩,
      ⟨"/home/alice/docs", 3, 1650000000, 3 / 4⟩]
    (by decide) (by with_unfolding_all rfl) (by decide)
    (by norm_num [List.pairwise_cons]) (by decide)

/-- Claim C3 (amended): `search` never returns more entries than
matched, and for `maxResults ≥ 0` at most `maxResults`, with
`maxResults = 0` giving the empty list and a `maxResults` at least the
number of matches returning all the matched records (a permutation of
them, in sorted order); but a negative `maxResults` is a Python slice
`[:n]` that drops the last `|n|` entries instead of returning the
empty sequence. -/
theorem search_truncation_bounds (f : String → String → Bool) (now : ℚ)
    (lines : List String) (q : String) (maxR : Int) (recs : List ZRecord)
    (hparse : parseAll now (matchedLines f q lines) = some recs) :
    ∃ res, search f now lines q maxR = some res ∧
      res.length ≤ recs.length ∧
      (0 ≤ maxR → (res.length : Int) ≤ maxR) ∧
      (maxR = 0 → res = []) ∧
      ((recs.length : Int) ≤ maxR → res.Perm recs) ∧
      (maxR < 0 → res.length = recs.length - (-maxR).toNat) := by
  have hperm : (sortDesc recs).Perm recs := sortDesc_perm recs
  have hlen : (sortDesc recs).length = recs.length := hperm.length_eq
  refine ⟨pySlice maxR (sortDesc recs), by simp only [search, hparse],
    ?_, ?_, ?_, ?_, ?_⟩
  · exact le_trans (List.Sublist.length_le (pySlice_sublist _ _)) (le_of_eq hlen)
  · intro h
    unfold pySlice
    rw [if_pos h]
    have := List.length_take maxR.toNat (sortDesc recs)
    omega
  · intro h
    subst h
    unfold pySlice
    simp
  · intro h
    rw [pySlice_all (by rw [hlen]; exact h)]
    exact hperm
  · intro h
    unfold pySlice
    rw [if_neg (by omega)]
    have := List.length_take ((sortDesc recs).length - (-maxR).toNat) (sortDesc recs)
    omega

/-- Witness for C3's amended theorem at a two-match store with
`maxResults = 5`: the bound exceeds the match count, so the
all-matches conjunct applies non-vacuously (`2 ≤ 5`) and the result is
a permutation of both matched records. -/
theorem search_truncation_bounds_witness :
    ∃ res, search reSearchCI 1700000100
        ["/home/alice/projects|10|1700000000\n", "/home/alice/docs|3|1650000000\n"]
        "alice" 5 = some res ∧
      res.length ≤ ([⟨"/home/alice/projects", 10, 1700000000, 40⟩,
        ⟨"/home/alice/docs", 3, 1650000000, 3 / 4⟩] : List ZRecord).length ∧
      (0 ≤ (5 : Int) → (res.length : Int) ≤ 5) ∧
      ((5 : Int) = 0 → res = []) ∧
      ((([⟨"/home/alice/projects", 10, 1700000000, 40⟩,
          ⟨"/home/alice/docs", 3, 1650000000, 3 / 4⟩] : List ZRecord).length : Int) ≤ 5 →
        res.Perm [⟨"/home/alice/projects", 10, 1700000000, 40⟩,
          ⟨"/home/alice/docs", 3, 1650000000, 3 / 4⟩]) ∧
      ((5 : Int) < 0 → res.length =
        ([⟨"/home/alice/projects", 10, 1700000000, 40⟩,
          ⟨"/home/alice/docs", 3, 1650000000, 3 / 4⟩] : List ZRecord).length -
          ((-5 : Int)).toNat) :=
  search_truncation_bounds reSearchCI 1700000100
    ["/home/alice/projects|10|1700000000\n", "/home/alice/docs|3|1650000000\n"]
    "alice" 5
    [⟨"/home/alice/projects", 10, 1700000000, 40⟩,
      ⟨"/home/alice/docs", 3, 1650000000, 3 / 4⟩]
    (by with_unfolding_all rfl)

/-- Counterexample to C3 as stated: with `maxResults = -1` and two
matching records, `search` returns one entry (Python's `[:-1]` drops
only the last element), not the empty sequence the claim requires for
every `maxResults ≤ 0`. -/
theorem search_negative_max_not_empty :
    search reSearchCI 1700000100
        ["/home/alice/projects|10|1700000000\n", "/home/alice/docs|3|1650000000\n"]
        "alice" (-1) =
      some [⟨"/home/alice/projects", 10, 1700000000, 40⟩] ∧
    some [(⟨"/home/alice/projects", 10, 1700000000, 40⟩ : ZRecord)] ≠
      some ([] : List ZRecord) :=
  ⟨by with_unfolding_all rfl, by simp⟩

/-- Claim C7: the pattern (compiled case-insensitively from the
lowered query, abstracted as `f`) is searched in the raw unparsed
line, so a record is returned iff the pattern finds a match anywhere
in its raw line text — not only in the path field. -/
theorem search_matches_raw_line (f : String → String → Bool) (now : ℚ)
    (lines : List String) (q : String) (maxR : Int)
    (recs res : List ZRecord)
    (hparse : parseAll now (matchedLines f q lines) = some recs)
    (hmax : (recs.length : Int) ≤ maxR)
    (hres : search f now lines q maxR = some res) :
    ∀ rec : ZRecord, rec ∈ res ↔
      ∃ l ∈ lines, f (pyLower q) l = true ∧ parseLine now l = some rec := by
  have hperm : (sortDesc recs).Perm recs := sortDesc_perm recs
  have hres' : res = sortDesc recs := by
    simp only [search, hparse] at hres
    rw [pySlice_all (by rw [hperm.length_eq]; exact hmax)] at hres
    exact (Option.some_inj.mp hres).symm
  intro rec
  rw [hres', hperm.mem_iff, forall2_parse_mem (parseAll_eq_forall2.mp hparse) rec]
  constructor
  · rintro ⟨l, hl, hp⟩
    obtain ⟨hin, hm⟩ := List.mem_filter.mp (by rw [matchedLines] at hl; exact hl)
    exact ⟨l, hin, hm, hp⟩
  · rintro ⟨l, hin, hm, hp⟩
    exact ⟨l, List.mem_filter.mpr ⟨hin, hm⟩, hp⟩

/-- Witness for C7: the query `"1700"` occurs nowhere in the path
`/home/alice/docs` but matches the digits of the stored timestamp in
the raw line, and the record is returned. -/
theorem search_matches_raw_line_witness :
    (⟨"/home/alice/docs", 3, 1700000000, 12⟩ : ZRecord) ∈
        [(⟨"/home/alice/docs", 3, 1700000000, 12⟩ : ZRecord)] ↔
      ∃ l ∈ ["/home/alice/docs|3|1700000000\n"],
        reSearchCI (pyLower ("1700")) l = true ∧
        parseLine 1700000100 l = some ⟨"/home/alice/docs", 3, 1700000000, 12⟩ :=
  search_matches_raw_line reSearchCI 1700000100 ["/home/alice/docs|3|1700000000\n"]
    "1700" 5
    [⟨"/home/alice/docs", 3, 1700000000, 12⟩]
    [⟨"/home/alice/docs", 3, 1700000000, 12⟩]
    (by with_unfolding_all rfl) (by decide) (by with_unfolding_all rfl)
    ⟨"/home/alice/docs", 3, 1700000000, 12⟩

/-- Claim C5 (amended): a malformed line is skipped only because the
pattern does not match it; whenever every line the pattern matches
parses, `search` succeeds and returns exactly the results of the
well-formed matching lines.  (If the pattern does match a malformed
line, `search` raises instead — see the counterexample.) -/
theorem search_skips_unmatched_malformed (f : String → String → Bool) (now : ℚ)
    (lines : List String) (q : String) (maxR : Int)
    (hclean : ∀ l ∈ lines, f (pyLower q) l = true → (parseLine now l).isSome) :
    search f now lines q maxR =
      some (pySlice maxR (sortDesc
        ((matchedLines f q lines).filterMap (parseLine now)))) := by
  have hall : ∀ l ∈ matchedLines f q lines, (parseLine now l).isSome := by
    intro l hl
    obtain ⟨hin, hm⟩ := List.mem_filter.mp (by rw [matchedLines] at hl; exact hl)
    exact hclean l hin hm
  simp only [search, parseAll_of_all_isSome hall]

/-- Witness for C5's amended theorem at the spec scenario: the store
holds the separator-free line `garbage` and one well-formed line; the
query `docs` does not match `garbage`, and the search returns exactly
the well-formed line's record. -/
theorem search_skips_unmatched_malformed_witness :
    search reSearchCI 1700000100 ["garbage\n", "/home/alice/docs|3|1650000000\n"]
      "docs" 10 = some [⟨"/home/alice/docs", 3, 1650000000, 3 / 4⟩] := by
  rw [search_skips_unmatched_malformed reSearchCI 1700000100
    ["garbage\n", "/home/alice/docs|3|1650000000\n"] "docs" 10 (by decide)]
  with_unfolding_all rfl

/-- Counterexample to C5 as stated: when the pattern does match the
malformed line (`"ga"` matches `garbage`), the triple unpacking of
`split("|")` raises `ValueError` and the whole search fails (`none`)
instead of skipping the line and returning the well-formed
`/home/gap` record. -/
theorem search_matching_malformed_raises :
    search reSearchCI 0 ["garbage\n", "/home/gap|1|0\n"] "ga" 10 = none := by
  with_unfolding_all rfl

end ZSearch
